import Mathlib

/-!
Verification development for the Stable-Content Render Scheduler of the
cascade-panel scan module (`src/patcher/patches/cascade-panel/cascade-panel.js`).

The DOM is shallowly embedded as a rose tree of element nodes.  Selector
matching (`CONTENT_SELECTOR`, the feedback selector, the mermaid selector) is
abstracted as boolean attributes of a node, since the scheduler only ever asks
whether a node matches a selector, never how.  `querySelector`/`querySelectorAll`
are embedded as searches over the pre-order (document-order) list of proper
descendants, exactly as the DOM APIs behave.  Node identity comparison is
embedded as equality of a numeric `id` attribute; a well-formed document gives
distinct ids to distinct nodes.  Timer fires of the deferred-render loop are
embedded as explicit environment snapshots (`FireEnv`) sampled at each fire,
and the per-block scheduling record of the `deferredRenders` weak map is the
explicit `DeferredState`.
-/

namespace CascadePanel

/-- Attributes of one DOM element node: identity, whether it matches the
content-block selector (`CONTENT_SELECTOR`), the feedback-button selector
(`FEEDBACK_SELECTOR`), the mermaid selector, and its directly-owned text. -/
structure NodeData where
  id : Nat
  isContent : Bool
  isFeedback : Bool
  isMermaid : Bool
  ownText : String
deriving DecidableEq

/-- A DOM element node: attributes plus an ordered list of element children. -/
inductive DNode where
  | mk (data : NodeData) (children : List DNode)

def DNode.data : DNode → NodeData
  | .mk d _ => d

def DNode.children : DNode → List DNode
  | .mk _ cs => cs

def DNode.id (n : DNode) : Nat := n.data.id

def DNode.isContent (n : DNode) : Bool := n.data.isContent

def DNode.isFeedback (n : DNode) : Bool := n.data.isFeedback

def DNode.isMermaid (n : DNode) : Bool := n.data.isMermaid

def DNode.ownText (n : DNode) : String := n.data.ownText

mutual

/-- All proper descendants of a node, in document (pre-)order: this is the
sequence `querySelectorAll` filters, and `querySelector` takes the first
match of. -/
def DNode.descendants : DNode → List DNode
  | .mk _ cs => descendantsList cs

def descendantsList : List DNode → List DNode
  | [] => []
  | c :: cs => c :: DNode.descendants c ++ descendantsList cs

end

/-- A node together with all its proper descendants (the whole subtree). -/
def allNodes (t : DNode) : List DNode := t :: DNode.descendants t

/-- `textContent` of a node: its own text followed by the text of all
descendants in document order. -/
def textContent (n : DNode) : String :=
  n.ownText ++ String.join ((DNode.descendants n).map (fun d => d.ownText))

/-! ### Constants of the scan module -/

def MAX_FEEDBACK_DEPTH : Nat := 20

def STABLE_RENDER_DELAY : Nat := 360

def STABLE_RENDER_MAX_WAIT : Nat := 2500

/-! ### Completion detector (`hasFeedbackButtons`) -/

/-- `node.querySelector(FEEDBACK_SELECTOR) !== null`. -/
def nodeHasFeedback (n : DNode) : Bool :=
  (DNode.descendants n).any (fun d => d.isFeedback)

/-- `node.querySelectorAll(CONTENT_SELECTOR)`: all content-shaped proper
descendants in document order. -/
def contentsIn (n : DNode) : List DNode :=
  (DNode.descendants n).filter (fun d => d.isContent)

/-- The ancestor-walk loop body of `hasFeedbackButtons`: `chain` is the list
`[node, node.parentElement, ...]` still to visit, `fuel` the remaining depth
budget, `blockId` the identity of the block under test. -/
def feedbackWalk (blockId : Nat) : Nat → List DNode → Bool
  | 0, _ => false
  | _ + 1, [] => false
  | fuel + 1, node :: rest =>
    if nodeHasFeedback node then
      match (contentsIn node).getLast? with
      | none => false
      | some last => last.id == blockId
    else feedbackWalk blockId fuel rest

/-- `hasFeedbackButtons(contentEl)`, with the block's ancestor chain made
explicit: the head of `chain` is the block itself, followed by its ancestors
from nearest to farthest. -/
def hasFeedbackButtons : List DNode → Bool
  | [] => false
  | block :: rest => feedbackWalk block.id MAX_FEEDBACK_DEPTH (block :: rest)

/-- The completion-detector property as Claim C4 words it: SOME self-or-ancestor
level within the depth bound carries a feedback-marker descendant and the block
under test is the last content block, in document order, within that level. -/
def claimDetectorSome (chain : List DNode) : Bool :=
  match chain with
  | [] => false
  | block :: _ =>
    (chain.take MAX_FEEDBACK_DEPTH).any (fun anc =>
      nodeHasFeedback anc &&
        (match (contentsIn anc).getLast? with
         | some l => l.id == block.id
         | none => false))

/-! ### Deferred render scheduler (`scheduleDeferredRender` and its `attempt` closure) -/

/-- The scheduling record stored in the `deferredRenders` weak map for one
Armed content block (the `timerId` handle is carried separately where it
matters). -/
structure DeferredState where
  lastText : String
  lastChange : Nat
deriving DecidableEq

/-- What one fire of the `attempt` timer callback does to the block:
`drop` = entry deleted because the block is disconnected, no render;
`finalize` = `renderContentNode(contentEl, true)` invoked;
`rearm st` = a fresh `STABLE_RENDER_DELAY` timer is set with record `st`. -/
inductive FireResult where
  | drop
  | finalize
  | rearm (st : DeferredState)
deriving DecidableEq

/-- The body of the `attempt` timer callback, over the values it samples at
the fire: connectivity, current text, current time, `hasFeedbackButtons`
result and whether any feedback marker exists in the document. -/
def attemptCore (st : DeferredState) (connected : Bool) (currentText : String)
    (currentTime : Nat) (complete : Bool) (feedbackExpected : Bool) : FireResult :=
  if connected = false then .drop
  else if currentText ≠ st.lastText then
    .rearm { lastText := currentText, lastChange := currentTime }
  else
    let idleMs := currentTime - st.lastChange
    if complete = true then .finalize
    else if feedbackExpected = false ∧ STABLE_RENDER_DELAY ≤ idleMs then .finalize
    else if feedbackExpected = true ∧ STABLE_RENDER_MAX_WAIT ≤ idleMs then .finalize
    else .rearm st

/-- The environment one timer fire observes: the current document, the block
and its ancestor chain inside it, whether the block is connected, and the
current time. -/
structure FireEnv where
  doc : DNode
  ancestors : List DNode
  block : DNode
  connected : Bool
  now : Nat

/-- One fire of the `attempt` callback in environment `e`: text is re-sampled
from the block, `complete` is `hasFeedbackButtons(contentEl)` and
`feedbackExpected` is `document.querySelector(FEEDBACK_SELECTOR) !== null`. -/
def attempt (st : DeferredState) (e : FireEnv) : FireResult :=
  attemptCore st e.connected (textContent e.block) e.now
    (hasFeedbackButtons (e.block :: e.ancestors))
    ((DNode.descendants e.doc).any (fun n => n.isFeedback))

/-- Outcome of running a finite chain of timer fires for one block. -/
inductive RunOutcome where
  | stillArmed (st : DeferredState)
  | finalized (time : Nat)
  | dropped (time : Nat)
deriving DecidableEq

/-- Run the per-block timer loop over a list of fire environments: each
re-arm chains into the next fire; `drop` and `finalize` end the loop. -/
def run : DeferredState → List FireEnv → RunOutcome
  | st, [] => .stillArmed st
  | st, e :: es =>
    match attempt st e with
    | .drop => .dropped e.now
    | .finalize => .finalized e.now
    | .rearm st2 => run st2 es

/-- The periodic fire chain produced by re-arming every
`STABLE_RENDER_DELAY` ms starting from time `base`, in an unchanging
environment: fire `i` happens at `base + STABLE_RENDER_DELAY * (i+1)`. -/
def periodicEnvs (doc : DNode) (ancestors : List DNode) (block : DNode)
    (base : Nat) (n : Nat) : List FireEnv :=
  (List.range n).map (fun i =>
    { doc := doc, ancestors := ancestors, block := block, connected := true,
      now := base + STABLE_RENDER_DELAY * (i + 1) })

/-- `scheduleDeferredRender(contentEl)` acting on the block's current
`deferredRenders` entry (paired with its timer handle).  Returns the new
entry together with a flag telling whether a new timer was created
(`window.setTimeout` called). -/
def scheduleDeferredRender (connected : Bool) (text : String) (now : Nat)
    (entry : Option (DeferredState × Nat)) (freshTimer : Nat) :
    Option (DeferredState × Nat) × Bool :=
  if connected = false then (entry, false)
  else
    match entry with
    | some (st, tid) =>
      if text ≠ st.lastText then
        (some ({ lastText := text, lastChange := now }, tid), false)
      else (some (st, tid), false)
    | none => (some ({ lastText := text, lastChange := now }, freshTimer), true)

/-! ### Renderer dispatch (`renderContentNode`, `renderMermaidWithin`) -/

/-- The configuration fields the scan module consults. -/
structure Config where
  mermaid : Bool
  math : Bool
  copyButton : Bool

/-- Ids of the nodes `renderMermaidWithin(root)` passes to `renderMermaid`:
the root itself when mermaid-shaped, then its mermaid-shaped descendants. -/
def renderMermaidWithin (cfg : Config) (root : DNode) : List Nat :=
  if cfg.mermaid = false then []
  else
    (if root.isMermaid then [root.id] else [])
      ++ ((DNode.descendants root).filter (fun d => d.isMermaid)).map (fun d => d.id)

/-- The observable effects of one `renderContentNode` call. -/
structure RenderEffects where
  copyButton : Bool
  scheduledDefer : Bool
  clearedDefer : Bool
  mathRun : Bool
  mermaidIds : List Nat
deriving DecidableEq

/-- The empty effect record: the call did nothing at all. -/
def noEffects : RenderEffects :=
  { copyButton := false, scheduledDefer := false, clearedDefer := false,
    mathRun := false, mermaidIds := [] }

/-- `renderContentNode(contentEl, force)`: a disconnected block is a no-op;
otherwise the copy button is ensured, and the block either gets deferred
(`scheduleDeferredRender`) when not ready, or is finalized: deferred entry
cleared, math run if enabled, mermaid run over the block if enabled. -/
def renderContentNode (cfg : Config) (connected : Bool) (block : DNode)
    (ancestors : List DNode) (force : Bool) : RenderEffects :=
  if connected = false then noEffects
  else
    let ready := force || hasFeedbackButtons (block :: ancestors)
    if ready = false then
      { copyButton := cfg.copyButton, scheduledDefer := true, clearedDefer := false,
        mathRun := false, mermaidIds := [] }
    else
      { copyButton := cfg.copyButton, scheduledDefer := false, clearedDefer := true,
        mathRun := cfg.math, mermaidIds := renderMermaidWithin cfg block }

/-! ### Scan coordinator (`resolveScanRoot`, `scheduleScan`, `flushScan`) -/

/-- The upward loop of `resolveScanRoot`: at each of up to
`MAX_FEEDBACK_DEPTH` chain levels, `node.querySelector(CONTENT_SELECTOR)`
(first content-shaped descendant in document order), else step to the
parent. -/
def resolveLoop : Nat → List DNode → Option DNode
  | 0, _ => none
  | _ + 1, [] => none
  | fuel + 1, node :: rest =>
    match (DNode.descendants node).find? (fun d => d.isContent) with
    | some c => some c
    | none => resolveLoop fuel rest

/-- `resolveScanRoot(target)` for an element target given as its
self-plus-ancestors chain: `target.closest(CONTENT_SELECTOR)` first (the
nearest self-or-ancestor content node), then the bounded upward
`querySelector` loop, then the raw target. -/
def resolveScanRootChain (chain : List DNode) : Option DNode :=
  match chain.find? (fun n => n.isContent) with
  | some c => some c
  | none =>
    match resolveLoop MAX_FEEDBACK_DEPTH chain with
    | some c => some c
    | none => chain.head?

/-- A raw mutation target: an element (with its self-plus-ancestors chain) or
a non-element node such as a text node (with the chain of its parent element,
`[]` when it has no parent). -/
inductive RawNode where
  | elem (chain : List DNode)
  | textNode (parentChain : List DNode)

/-- `resolveScanRoot(target)` including its first step, which replaces a
text-node target by its parent element. -/
def resolveScanRoot : RawNode → Option DNode
  | .elem chain => resolveScanRootChain chain
  | .textNode pchain => resolveScanRootChain pchain

/-- The dispatch `scheduleScan` performs before enqueuing: an element node is
enqueued itself; a non-element node is replaced by its parent element when it
has one and otherwise skipped. -/
def dispatchTarget : RawNode → Option (List DNode)
  | .elem chain => some chain
  | .textNode [] => none
  | .textNode (p :: ps) => some (p :: ps)

/-- The scan coordinator's module state: the deduplicated pending set of
scan-root ids in insertion order, and the `scheduled` flag. -/
structure CoordState where
  pending : List Nat
  scheduled : Bool
deriving DecidableEq

/-- `pendingNodes.add(root)`: JavaScript `Set` insertion (identity-keyed,
keeps insertion order, deduplicates). -/
def insertId (l : List Nat) (i : Nat) : List Nat :=
  if i ∈ l then l else l ++ [i]

/-- The `enqueue` step of `scheduleScan` folded over one target: resolve the
scan root and add it to the pending set, recording that some element was
enqueued. -/
def enqueueStep (acc : List Nat × Bool) (t : RawNode) : List Nat × Bool :=
  match dispatchTarget t with
  | none => acc
  | some chain =>
    match resolveScanRootChain chain with
    | none => acc
    | some root => (insertId acc.1 root.id, true)

/-- `scheduleScan(nodes)`: enqueue every target, then schedule exactly one
flush (`requestAnimationFrame(flushScan)`) when something was enqueued and no
flush is scheduled yet.  The returned flag tells whether a flush was
scheduled by this call. -/
def scheduleScan (st : CoordState) (targets : List RawNode) : CoordState × Bool :=
  let folded := targets.foldl enqueueStep (st.pending, false)
  if folded.2 = true ∧ st.scheduled = false then
    ({ pending := folded.1, scheduled := true }, true)
  else ({ pending := folded.1, scheduled := st.scheduled }, false)

/-- `flushScan()` when no scan throws: clears the `scheduled` flag, drains the
pending set, and scans each drained root that is still connected (`conn`
tells connectivity by id).  Returns the new state and the ids scanned, in
order. -/
def flushScan (st : CoordState) (conn : Nat → Bool) : CoordState × List Nat :=
  ({ pending := [], scheduled := false }, st.pending.filter conn)

/-- The `forEach` loop of `flushScan` when `scan(root)` may throw
synchronously (`throwsOn` tells which roots throw): the loop stops at the
first throwing root.  Returns the roots on which `scan` was invoked and
whether the loop threw. -/
def flushLoop (conn throwsOn : Nat → Bool) : List Nat → List Nat × Bool
  | [] => ([], false)
  | r :: rs =>
    if conn r = false then flushLoop conn throwsOn rs
    else if throwsOn r then ([r], true)
    else
      let rest := flushLoop conn throwsOn rs
      (r :: rest.1, rest.2)

/-- `flushScan()` with a possibly-throwing `scan`: the `scheduled` flag is
cleared and the pending set drained before the loop runs, so the new state is
empty/idle whether or not the loop throws. -/
def flushScanT (st : CoordState) (conn throwsOn : Nat → Bool) :
    CoordState × (List Nat × Bool) :=
  ({ pending := [], scheduled := false }, flushLoop conn throwsOn st.pending)

/-! ### Concrete documents used by witnesses and counterexamples -/

/-- C1 witness world: a lone content block, no feedback marker anywhere. -/
def w1Block : DNode := .mk ⟨1, true, false, false, "A"⟩ []

def w1Doc : DNode := .mk ⟨0, false, false, false, ""⟩ [w1Block]

/-- C2 world: a feedback marker exists elsewhere in the document but the block
under test is not the last content block, so `hasFeedbackButtons` stays
false. -/
def c2Block : DNode := .mk ⟨1, true, false, false, "A"⟩ []

def c2Other : DNode := .mk ⟨2, true, false, false, ""⟩ []

def c2Fb : DNode := .mk ⟨3, false, true, false, ""⟩ []

def c2Root : DNode := .mk ⟨0, false, false, false, ""⟩ [c2Block, c2Other, c2Fb]

/-- C3 world: the block is the last content block and a feedback marker is
present, so `hasFeedbackButtons` is true. -/
def c3Block : DNode := .mk ⟨1, true, false, false, "AB"⟩ []

def c3Fb : DNode := .mk ⟨2, false, true, false, ""⟩ []

def c3Root : DNode := .mk ⟨0, false, false, false, ""⟩ [c3Block, c3Fb]

/-- C4 counterexample world: the feedback marker sits INSIDE the block itself,
which has no content-shaped descendant of its own; the parent level would
certify the block as last content block. -/
def c4Fb : DNode := .mk ⟨2, false, true, false, ""⟩ []

def c4Block : DNode := .mk ⟨1, true, false, false, ""⟩ [c4Fb]

def c4Parent : DNode := .mk ⟨0, false, false, false, ""⟩ [c4Block]

/-- C6 witness world: a single content-shaped scan root. -/
def c6Block : DNode := .mk ⟨5, true, false, false, ""⟩ []

/-- C7 counterexample world: the target has no content ancestor and no content
descendant, but its parent has another child that is content-shaped. -/
def c7Target : DNode := .mk ⟨1, false, false, false, ""⟩ []

def c7Cousin : DNode := .mk ⟨3, true, false, false, ""⟩ []

def c7Parent : DNode := .mk ⟨2, false, false, false, ""⟩ [c7Target, c7Cousin]

/-! ### Basic lemmas about the tree model -/

@[simp]
theorem descendants_mk (d : NodeData) (cs : List DNode) :
    DNode.descendants (.mk d cs) = descendantsList cs := rfl

@[simp]
theorem descendantsList_nil : descendantsList [] = [] := rfl

@[simp]
theorem descendantsList_cons (c : DNode) (cs : List DNode) :
    descendantsList (c :: cs) = c :: DNode.descendants c ++ descendantsList cs := rfl

mutual

theorem descClosed (t : DNode) :
    ∀ n ∈ DNode.descendants t, ∀ m ∈ DNode.descendants n, m ∈ DNode.descendants t := by
  match t with
  | .mk d cs =>
    intro n hn m hm
    exact descClosedList cs n hn m hm

theorem descClosedList (cs : List DNode) :
    ∀ n ∈ descendantsList cs, ∀ m ∈ DNode.descendants n, m ∈ descendantsList cs := by
  match cs with
  | [] => intro n hn; simp at hn
  | c :: cs' =>
    intro n hn m hm
    simp only [descendantsList_cons, List.mem_cons, List.mem_append] at hn ⊢
    rcases hn with (h | h) | h
    · subst h; exact Or.inl (Or.inr hm)
    · exact Or.inl (Or.inr (descClosed c n h m hm))
    · exact Or.inr (descClosedList cs' n h m hm)

end

/-- Subtree closure for `allNodes`: any node of the subtree of a node of `t`'s
subtree is itself a node of `t`'s subtree. -/
theorem allNodes_trans (t n m : DNode) (hn : n ∈ allNodes t) (hm : m ∈ allNodes n) :
    m ∈ allNodes t := by
  simp only [allNodes, List.mem_cons] at hn hm ⊢
  rcases hm with hm | hm
  · subst hm; exact hn
  · rcases hn with hn | hn
    · subst hn; exact Or.inr hm
    · exact Or.inr (descClosed t n hn m hm)

/-! ### Helper lemmas about the completion detector -/

/-- Closed form of the bounded ancestor walk: it is decided entirely at the
first (nearest) level within the fuel bound whose subtree carries a feedback
marker. -/
theorem feedbackWalk_eq_find (blockId : Nat) :
    ∀ (fuel : Nat) (chain : List DNode),
      feedbackWalk blockId fuel chain =
        match (chain.take fuel).find? nodeHasFeedback with
        | none => false
        | some anc =>
          match (contentsIn anc).getLast? with
          | none => false
          | some last => last.id == blockId := by
  intro fuel
  induction fuel with
  | zero => intro chain; simp [feedbackWalk]
  | succ fuel ih =>
    intro chain
    cases chain with
    | nil => simp [feedbackWalk]
    | cons node rest =>
      cases hb : nodeHasFeedback node with
      | true => simp [feedbackWalk, hb, List.take_succ_cons, List.find?_cons_of_pos]
      | false =>
        rw [List.take_succ_cons, List.find?_cons_of_neg _ (by simp [hb]),
          show feedbackWalk blockId (fuel + 1) (node :: rest)
            = feedbackWalk blockId fuel rest from by simp [feedbackWalk, hb]]
        exact ih rest

/-- If no node of the chain has a feedback-marker descendant, the walk
returns false. -/
theorem feedbackWalk_false (blockId fuel : Nat) (chain : List DNode)
    (h : ∀ n ∈ chain, nodeHasFeedback n = false) :
    feedbackWalk blockId fuel chain = false := by
  rw [feedbackWalk_eq_find]
  have : (chain.take fuel).find? nodeHasFeedback = none := by
    apply List.find?_eq_none.mpr
    intro n hn
    simp [h n (List.mem_of_mem_take hn)]
  rw [this]

/-! ### Helper lemmas about the timer run -/

theorem run_append (st : DeferredState) (es es' : List FireEnv) :
    run st (es ++ es') =
      match run st es with
      | .stillArmed st2 => run st2 es'
      | r => r := by
  induction es generalizing st with
  | nil => simp [run]
  | cons e es ih =>
    simp only [List.cons_append, run]
    cases attempt st e with
    | drop => rfl
    | finalize => rfl
    | rearm st2 => exact ih st2

theorem run_rearm_all (st : DeferredState) (es : List FireEnv)
    (h : ∀ e ∈ es, attempt st e = .rearm st) :
    run st es = .stillArmed st := by
  induction es with
  | nil => rfl
  | cons e es ih =>
    simp only [run, h e (List.mem_cons_self e es)]
    exact ih (fun e2 he2 => h e2 (List.mem_cons_of_mem e he2))

/-! ### Helper lemmas about the scan coordinator -/

theorem mem_insertId (l : List Nat) (i : Nat) : i ∈ insertId l i := by
  by_cases h : i ∈ l
  · rw [show insertId l i = if i ∈ l then l else l ++ [i] from rfl, if_pos h]
    exact h
  · rw [show insertId l i = if i ∈ l then l else l ++ [i] from rfl, if_neg h]
    simp

theorem insertId_idem (l : List Nat) (i : Nat) :
    insertId (insertId l i) i = insertId l i := by
  rw [show insertId (insertId l i) i
      = if i ∈ insertId l i then insertId l i else insertId l i ++ [i] from rfl,
    if_pos (mem_insertId l i)]

/-- Closed form of the upward loop of `resolveScanRoot`: the first content
descendant found at the nearest level, within the fuel bound, that has one. -/
theorem resolveLoop_eq_findSome (fuel : Nat) :
    ∀ chain : List DNode,
      resolveLoop fuel chain =
        (chain.take fuel).findSome?
          (fun n => (DNode.descendants n).find? (fun d => d.isContent)) := by
  induction fuel with
  | zero => intro chain; simp [resolveLoop]
  | succ fuel ih =>
    intro chain
    cases chain with
    | nil => simp [resolveLoop]
    | cons node rest =>
      simp only [resolveLoop, List.take_succ_cons, List.findSome?_cons]
      cases (DNode.descendants node).find? (fun d => d.isContent) with
      | none => exact ih rest
      | some c => rfl

theorem flushLoop_no_throw (conn throwsOn : Nat → Bool) :
    ∀ l : List Nat, (∀ i ∈ l, throwsOn i = false) →
      flushLoop conn throwsOn l = (l.filter conn, false) := by
  intro l
  induction l with
  | nil => intro _; rfl
  | cons r rs ih =>
    intro h
    have hr : throwsOn r = false := h r (List.mem_cons_self r rs)
    have hrest := ih (fun i hi => h i (List.mem_cons_of_mem r hi))
    by_cases hc : conn r = false
    · simp [flushLoop, hc, hrest, List.filter_cons, hc]
    · simp only [Bool.not_eq_false] at hc
      simp [flushLoop, hc, hr, hrest, List.filter_cons]

theorem flushLoop_throw (conn throwsOn : Nat → Bool) (r : Nat)
    (hc : conn r = true) (ht : throwsOn r = true) :
    ∀ (p1 p2 : List Nat), (∀ i ∈ p1, throwsOn i = false) →
      flushLoop conn throwsOn (p1 ++ r :: p2) = (p1.filter conn ++ [r], true) := by
  intro p1
  induction p1 with
  | nil => intro p2 _; simp [flushLoop, hc, ht]
  | cons a p1' ih =>
    intro p2 h
    have ha : throwsOn a = false := h a (List.mem_cons_self a p1')
    have hrest := ih p2 (fun i hi => h i (List.mem_cons_of_mem a hi))
    by_cases hca : conn a = false
    · simp [flushLoop, hca, hrest, List.filter_cons]
    · simp only [Bool.not_eq_false] at hca
      simp [flushLoop, hca, ha, hrest, List.filter_cons]

/-- Folding the enqueue step over targets that all resolve to one root `r`
inserts exactly `r` and reports that an element was enqueued. -/
theorem foldl_enqueue_same (r : DNode) :
    ∀ targets : List RawNode, targets ≠ [] →
      (∀ t ∈ targets, ∃ chain, dispatchTarget t = some chain
          ∧ resolveScanRootChain chain = some r) →
      ∀ (p : List Nat) (b : Bool),
        targets.foldl enqueueStep (p, b) = (insertId p r.id, true) := by
  intro targets
  induction targets with
  | nil => intro h; exact absurd rfl h
  | cons t ts ih =>
    intro _ h p b
    obtain ⟨chain, hd, hr⟩ := h t (List.mem_cons_self t ts)
    have hstep : enqueueStep (p, b) t = (insertId p r.id, true) := by
      simp [enqueueStep, hd, hr]
    cases ts with
    | nil => simp [List.foldl, hstep]
    | cons t2 ts2 =>
      have ih2 := ih (by simp) (fun u hu => h u (List.mem_cons_of_mem t hu))
        (insertId p r.id) true
      simp only [List.foldl_cons] at ih2 ⊢
      rw [hstep]
      rw [ih2, insertId_idem]

/-! ### Per-fire behaviour of the `attempt` callback -/

/-- With no feedback marker anywhere in the document (and the block's chain
lying inside the document), a connected fire with unchanged text and idle time
at least `STABLE_RENDER_DELAY` finalizes. -/
theorem attempt_finalize_no_marker (st : DeferredState) (e : FireEnv)
    (hc : e.connected = true) (ht : textContent e.block = st.lastText)
    (hnf : ∀ n ∈ allNodes e.doc, n.isFeedback = false)
    (hchain : ∀ n ∈ e.block :: e.ancestors, n ∈ allNodes e.doc)
    (hidle : STABLE_RENDER_DELAY ≤ e.now - st.lastChange) :
    attempt st e = .finalize := by
  have hfb : ∀ n ∈ e.block :: e.ancestors, nodeHasFeedback n = false := by
    intro n hn
    apply List.any_eq_false.mpr
    intro d hd
    have hmem : d ∈ allNodes e.doc :=
      allNodes_trans e.doc n d (hchain n hn) (List.mem_cons_of_mem _ hd)
    simp [hnf d hmem]
  have hcomplete : hasFeedbackButtons (e.block :: e.ancestors) = false :=
    feedbackWalk_false e.block.id MAX_FEEDBACK_DEPTH (e.block :: e.ancestors) hfb
  have hexp : (DNode.descendants e.doc).any (fun n => n.isFeedback) = false := by
    apply List.any_eq_false.mpr
    intro d hd
    simp [hnf d (List.mem_cons_of_mem _ hd)]
  simp [attempt, attemptCore, hc, ht, hcomplete, hexp, hidle]

/-- With a marker elsewhere in the document but `hasFeedbackButtons` false on
the block, a connected fire with unchanged text is decided purely by the
`STABLE_RENDER_MAX_WAIT` comparison. -/
theorem attempt_marker_wait (st : DeferredState) (e : FireEnv)
    (hc : e.connected = true) (ht : textContent e.block = st.lastText)
    (hfb : hasFeedbackButtons (e.block :: e.ancestors) = false)
    (hexp : (DNode.descendants e.doc).any (fun n => n.isFeedback) = true) :
    attempt st e =
      if STABLE_RENDER_MAX_WAIT ≤ e.now - st.lastChange then .finalize
      else .rearm st := by
  simp [attempt, attemptCore, hc, ht, hfb, hexp]

/-- With `hasFeedbackButtons` true on the block, a connected fire with
unchanged text finalizes regardless of the idle time. -/
theorem attempt_finalize_marker (st : DeferredState) (e : FireEnv)
    (hc : e.connected = true) (ht : textContent e.block = st.lastText)
    (hm : hasFeedbackButtons (e.block :: e.ancestors) = true) :
    attempt st e = .finalize := by
  simp [attempt, attemptCore, hc, ht, hm]

/-! ### Claims -/

/-- Claim C1: on any timer fire at which an Armed block is still connected,
its current text equals the stored `lastText`, no completion-marker element
exists anywhere in the document, and at least `idleDelayMs = 360` ms have
elapsed since the recorded last change, the scheduler finalizes the block at
that fire; hence under a marker-free regime a block whose text has stopped
changing finalizes one idle delay after its recorded last change. -/
theorem C1_idle_finalization :
    (∀ (st : DeferredState) (e : FireEnv),
      e.connected = true →
      textContent e.block = st.lastText →
      (∀ n ∈ allNodes e.doc, n.isFeedback = false) →
      (∀ n ∈ e.block :: e.ancestors, n ∈ allNodes e.doc) →
      STABLE_RENDER_DELAY ≤ e.now - st.lastChange →
      attempt st e = .finalize)
    ∧ ∀ (st : DeferredState) (doc block : DNode) (ancestors : List DNode),
      (∀ n ∈ allNodes doc, n.isFeedback = false) →
      (∀ n ∈ block :: ancestors, n ∈ allNodes doc) →
      textContent block = st.lastText →
      run st (periodicEnvs doc ancestors block st.lastChange 1)
        = .finalized (st.lastChange + STABLE_RENDER_DELAY) := by
  constructor
  · exact fun st e hc ht hnf hchain hidle =>
      attempt_finalize_no_marker st e hc ht hnf hchain hidle
  · intro st doc block anc hnf hchain ht
    have hfin : attempt st
        ⟨doc, anc, block, true, st.lastChange + STABLE_RENDER_DELAY⟩
        = .finalize := by
      apply attempt_finalize_no_marker st _ rfl ht hnf hchain
      simp [Nat.add_sub_cancel_left]
    simp [periodicEnvs, List.range_succ, run, hfin]

/-- Claim C1 witness: a concrete marker-free document in which the fire at
360 ms of idle finalizes the block. -/
theorem C1_idle_finalization_witness :
    attempt ⟨"A", 0⟩ ⟨w1Doc, [w1Doc], w1Block, true, 360⟩ = .finalize := by
  apply C1_idle_finalization.1
  · rfl
  · rfl
  · decide
  · intro n hn
    simp only [List.mem_cons, List.not_mem_nil, or_false] at hn
    rcases hn with h | h <;> subst h <;> simp [allNodes, w1Doc, w1Block]
  · decide

/-- Claim C2 counterexample: an Armed block with `lastChange = 0` whose text
never changes, under a regime where a feedback marker exists elsewhere in the
document and `hasFeedbackButtons(block)` stays false, finalizes at 2520 ms on
the ideal 360 ms timer grid — which is LATER than `lastChange + maxWaitMs =
2500`, contradicting the claim's "never finalizes later than lastChange +
maxWaitMs". -/
theorem C2_timeout_counterexample :
    run ⟨"A", 0⟩ (periodicEnvs c2Root [c2Root] c2Block 0 7) = .finalized 2520
    ∧ hasFeedbackButtons [c2Block, c2Root] = false
    ∧ (DNode.descendants c2Root).any (fun n => n.isFeedback) = true
    ∧ ¬(2520 ≤ 0 + STABLE_RENDER_MAX_WAIT) := by
  exact ⟨by decide, by decide, by decide, by decide⟩

/-- Claim C2 amended: under the marker-elsewhere regime with unchanged text,
the block is never left permanently Armed: on the periodic 360 ms fire grid it
stays Armed through the first six fires and finalizes exactly at the seventh,
`lastChange + 7 * idleDelayMs = lastChange + 2520` ms — i.e. within
`maxWaitMs` plus one tick of its last change, not within `maxWaitMs`. -/
theorem C2_timeout_amended :
    ∀ (st : DeferredState) (doc block : DNode) (ancestors : List DNode) (m : Nat),
      hasFeedbackButtons (block :: ancestors) = false →
      (DNode.descendants doc).any (fun n => n.isFeedback) = true →
      textContent block = st.lastText →
      (run st (periodicEnvs doc ancestors block st.lastChange (7 + m))
          = .finalized (st.lastChange + STABLE_RENDER_DELAY * 7)
        ∧ (∀ k, k ≤ 6 → run st (periodicEnvs doc ancestors block st.lastChange k)
            = .stillArmed st)
        ∧ STABLE_RENDER_DELAY * 7 ≤ STABLE_RENDER_MAX_WAIT + STABLE_RENDER_DELAY) := by
  intro st doc block anc m hfb hexp ht
  have hfire : ∀ i : Nat,
      attempt st ⟨doc, anc, block, true, st.lastChange + STABLE_RENDER_DELAY * (i + 1)⟩
        = if STABLE_RENDER_MAX_WAIT ≤ STABLE_RENDER_DELAY * (i + 1) then .finalize
          else .rearm st := by
    intro i
    have h := attempt_marker_wait st
      ⟨doc, anc, block, true, st.lastChange + STABLE_RENDER_DELAY * (i + 1)⟩
      rfl ht hfb hexp
    simpa [Nat.add_sub_cancel_left] using h
  have hrearm : ∀ i : Nat, i < 6 →
      attempt st ⟨doc, anc, block, true, st.lastChange + STABLE_RENDER_DELAY * (i + 1)⟩
        = .rearm st := by
    intro i hi
    rw [hfire i, if_neg]
    simp only [STABLE_RENDER_DELAY, STABLE_RENDER_MAX_WAIT]
    omega
  have hstill : ∀ k : Nat, k ≤ 6 →
      run st (periodicEnvs doc anc block st.lastChange k) = .stillArmed st := by
    intro k hk
    apply run_rearm_all
    intro e he
    simp only [periodicEnvs, List.mem_map, List.mem_range] at he
    obtain ⟨i, hik, rfl⟩ := he
    exact hrearm i (by omega)
  refine ⟨?_, hstill, by simp [STABLE_RENDER_DELAY, STABLE_RENDER_MAX_WAIT]⟩
  have hsplit : periodicEnvs doc anc block st.lastChange (7 + m)
      = periodicEnvs doc anc block st.lastChange 7
        ++ (List.range m).map (fun i =>
            ({ doc := doc, ancestors := anc, block := block, connected := true,
               now := st.lastChange + STABLE_RENDER_DELAY * (7 + i + 1) } : FireEnv)) := by
    simp only [periodicEnvs, List.range_add, List.map_append, List.map_map]
    rfl
  have hseven : run st (periodicEnvs doc anc block st.lastChange 7)
      = .finalized (st.lastChange + STABLE_RENDER_DELAY * 7) := by
    have hsplit7 : periodicEnvs doc anc block st.lastChange 7
        = periodicEnvs doc anc block st.lastChange 6
          ++ [⟨doc, anc, block, true, st.lastChange + STABLE_RENDER_DELAY * (6 + 1)⟩] := by
      simp only [periodicEnvs, List.range_succ, List.map_append, List.map]
      rfl
    have hlast : attempt st
        ⟨doc, anc, block, true, st.lastChange + STABLE_RENDER_DELAY * (6 + 1)⟩
        = .finalize := by
      rw [hfire 6, if_pos]
      simp [STABLE_RENDER_DELAY, STABLE_RENDER_MAX_WAIT]
    rw [hsplit7, run_append, hstill 6 (le_refl 6)]
    simp [run, hlast]
  rw [hsplit, run_append, hseven]

/-- Claim C2 witness: the amended statement applied to the concrete
marker-elsewhere world. -/
theorem C2_timeout_amended_witness :
    run ⟨"A", 0⟩ (periodicEnvs c2Root [c2Root] c2Block 0 (7 + 0))
      = .finalized (0 + STABLE_RENDER_DELAY * 7) :=
  (C2_timeout_amended ⟨"A", 0⟩ c2Root c2Block [c2Root] 0
    (by decide) (by decide) (by decide)).1

/-- Claim C3 counterexample: at the very next timer tick after the marker
appears, the block's sampled text differs from the stored `lastText` (a final
token arrived together with the marker), so the fire re-arms instead of
finalizing — the claim's "finalizes on the very next timer tick" fails. -/
theorem C3_marker_counterexample :
    hasFeedbackButtons [c3Block, c3Root] = true
    ∧ attempt ⟨"A", 0⟩ ⟨c3Root, [c3Root], c3Block, true, 360⟩ = .rearm ⟨"AB", 360⟩
    ∧ (FireResult.rearm ⟨"AB", 360⟩ ≠ .finalize) := by
  exact ⟨by decide, by decide, by decide⟩

/-- Claim C3 amended: once `hasFeedbackButtons(block)` is true, a connected
fire finalizes regardless of idle time PROVIDED the sampled text equals the
stored `lastText`; when the text also changed, that fire re-arms and the
block finalizes at the following fire instead. -/
theorem C3_marker_finalization_amended :
    (∀ (st : DeferredState) (e : FireEnv),
      e.connected = true →
      textContent e.block = st.lastText →
      hasFeedbackButtons (e.block :: e.ancestors) = true →
      attempt st e = .finalize)
    ∧ ∀ (st : DeferredState) (e1 e2 : FireEnv),
      e1.connected = true → e2.connected = true →
      textContent e1.block ≠ st.lastText →
      textContent e2.block = textContent e1.block →
      hasFeedbackButtons (e2.block :: e2.ancestors) = true →
      run st [e1, e2] = .finalized e2.now := by
  constructor
  · exact fun st e hc ht hm => attempt_finalize_marker st e hc ht hm
  · intro st e1 e2 hc1 hc2 hne ht2 hm2
    have h1 : attempt st e1 = .rearm ⟨textContent e1.block, e1.now⟩ := by
      simp [attempt, attemptCore, hc1, hne]
    have h2 : attempt ⟨textContent e1.block, e1.now⟩ e2 = .finalize :=
      attempt_finalize_marker ⟨textContent e1.block, e1.now⟩ e2 hc2 ht2 hm2
    simp [run, h1, h2]

/-- Claim C3 witness: with the marker present and text unchanged, a fire only
5 ms after the last change (far below the idle delay) already finalizes. -/
theorem C3_marker_finalization_witness :
    attempt ⟨"AB", 0⟩ ⟨c3Root, [c3Root], c3Block, true, 5⟩ = .finalize := by
  apply C3_marker_finalization_amended.1
  · rfl
  · rfl
  · decide

/-- Claim C4 counterexample: the feedback marker sits inside the block itself,
which has no content-shaped descendant; the walk decides (false) at the block
level, even though the parent level carries the marker and certifies the block
as the last content block — so "returns true iff SOME ancestor within the
depth carries a marker and the block is last within it" fails. -/
theorem C4_detector_counterexample :
    hasFeedbackButtons [c4Block, c4Parent] = false
    ∧ claimDetectorSome [c4Block, c4Parent] = true := by
  exact ⟨by decide, by decide⟩

/-- Claim C4 amended: `hasFeedbackButtons` walks at most 20 levels starting at
the block itself and is decided entirely at the NEAREST level whose subtree
contains a feedback marker: it returns true iff such a level exists and the
last content-block descendant of that level is the block under test; if no
level within the bound carries a marker, it returns false. -/
theorem C4_detector_amended :
    ∀ chain : List DNode,
      hasFeedbackButtons chain =
        match chain with
        | [] => false
        | block :: _ =>
          match (chain.take MAX_FEEDBACK_DEPTH).find? nodeHasFeedback with
          | none => false
          | some anc =>
            match (contentsIn anc).getLast? with
            | none => false
            | some last => last.id == block.id := by
  intro chain
  cases chain with
  | nil => rfl
  | cons block rest => exact feedbackWalk_eq_find block.id MAX_FEEDBACK_DEPTH (block :: rest)

/-- Claim C5: `scheduleDeferredRender` on a block that already has a
`deferredRenders` entry never calls `window.setTimeout` (no second timer), the
timer handle is unchanged, and the entry is at most refreshed to the sampled
text and time. -/
theorem C5_single_timer :
    ∀ (connected : Bool) (text : String) (now : Nat) (st : DeferredState)
      (tid freshTimer : Nat),
      (scheduleDeferredRender connected text now (some (st, tid)) freshTimer).2 = false
      ∧ ∃ st2 : DeferredState,
          (scheduleDeferredRender connected text now (some (st, tid)) freshTimer).1
            = some (st2, tid)
          ∧ (st2 = st ∨ (st2.lastText = text ∧ st2.lastChange = now)) := by
  intro c text now st tid fresh
  by_cases hc : c = false
  · exact ⟨by simp [scheduleDeferredRender, hc],
      st, by simp [scheduleDeferredRender, hc], Or.inl rfl⟩
  · by_cases ht : text ≠ st.lastText
    · exact ⟨by simp [scheduleDeferredRender, hc, ht],
        ⟨text, now⟩, by simp [scheduleDeferredRender, hc, ht], Or.inr ⟨rfl, rfl⟩⟩
    · exact ⟨by simp [scheduleDeferredRender, hc, ht],
        st, by simp [scheduleDeferredRender, hc, ht], Or.inl rfl⟩

/-- Claim C6: starting from an idle coordinator, a non-empty batch of mutation
targets that all resolve to one scan root `r` schedules exactly one flush,
leaves exactly `r` pending (deduplicated by identity), makes the flush scan
`r` exactly once, and a further batch before the flush schedules no second
flush. -/
theorem C6_batch_collapse :
    ∀ (targets targets2 : List RawNode) (r : DNode) (conn : Nat → Bool),
      targets ≠ [] →
      (∀ t ∈ targets, ∃ chain, dispatchTarget t = some chain
          ∧ resolveScanRootChain chain = some r) →
      conn r.id = true →
      (scheduleScan ⟨[], false⟩ targets).2 = true
      ∧ (scheduleScan ⟨[], false⟩ targets).1 = ⟨[r.id], true⟩
      ∧ (flushScan (scheduleScan ⟨[], false⟩ targets).1 conn).2 = [r.id]
      ∧ (flushScan (scheduleScan ⟨[], false⟩ targets).1 conn).2.count r.id = 1
      ∧ (scheduleScan (scheduleScan ⟨[], false⟩ targets).1 targets2).2 = false := by
  intro ts ts2 r conn hne hres hconn
  have hfold := foldl_enqueue_same r ts hne hres [] false
  have hsched : scheduleScan ⟨[], false⟩ ts = (⟨[r.id], true⟩, true) := by
    simp [scheduleScan, hfold, insertId]
  refine ⟨by simp [hsched], by simp [hsched], ?_, ?_, ?_⟩
  · simp [hsched, flushScan, List.filter_cons, hconn]
  · simp [hsched, flushScan, List.filter_cons, hconn]
  · rw [hsched]
    simp [scheduleScan]

/-- Claim C6 witness: two mutation events resolving to the same content-shaped
root produce one scheduled flush and exactly one scan of that root. -/
theorem C6_batch_collapse_witness :
    (scheduleScan ⟨[], false⟩ [.elem [c6Block], .elem [c6Block]]).2 = true
    ∧ (flushScan (scheduleScan ⟨[], false⟩
        [.elem [c6Block], .elem [c6Block]]).1 (fun _ => true)).2.count c6Block.id = 1 := by
  have h := C6_batch_collapse [.elem [c6Block], .elem [c6Block]] [] c6Block
    (fun _ => true) (by simp)
    (by
      intro t ht
      simp only [List.mem_cons, List.not_mem_nil, or_false] at ht
      rcases ht with h | h <;> subst h <;> exact ⟨[c6Block], rfl, rfl⟩)
    rfl
  exact ⟨h.1, h.2.2.2.1⟩

/-- Claim C7 counterexample: a target with no content-shaped self-or-ancestor
on its chain and no content-shaped descendant of its own nevertheless resolves
to a node OTHER than the raw target — the first content descendant of its
parent (a cousin) — contradicting the claim's "otherwise it returns the raw
target itself". -/
theorem C7_resolve_counterexample :
    (∀ n ∈ [c7Target, c7Parent], n.isContent = false)
    ∧ (∀ d ∈ DNode.descendants c7Target, d.isContent = false)
    ∧ resolveScanRootChain [c7Target, c7Parent] = some c7Cousin
    ∧ c7Cousin.id ≠ c7Target.id := by
  exact ⟨by decide, by decide, rfl, by decide⟩

/-- Claim C7 amended: scan-root resolution prefers the nearest content-shaped
node on the self-plus-ancestors chain; failing that it walks up to 20 chain
levels starting at the target and returns the first content-shaped node among
the FULL-DEPTH descendants of the nearest level that has one (which may lie
outside the target's own subtree); failing that it returns the raw target; a
text-node target is first replaced by its parent element. -/
theorem C7_resolve_amended :
    (∀ chain : List DNode,
      resolveScanRootChain chain =
        match chain.find? (fun n => n.isContent) with
        | some c => some c
        | none =>
          match (chain.take MAX_FEEDBACK_DEPTH).findSome?
              (fun n => (DNode.descendants n).find? (fun d => d.isContent)) with
          | some c => some c
          | none => chain.head?)
    ∧ ∀ pchain : List DNode,
        resolveScanRoot (.textNode pchain) = resolveScanRoot (.elem pchain) := by
  constructor
  · intro chain
    unfold resolveScanRootChain
    rw [resolveLoop_eq_findSome]
  · intro pchain
    rfl

/-- Claim C8: a block that is disconnected at the moment its deferred timer
fires never triggers any transform: the fire drops the entry without
rendering, and `renderContentNode` on a disconnected block has no effects at
all. -/
theorem C8_detachment_safety :
    (∀ (st : DeferredState) (doc block : DNode) (ancestors : List DNode) (now : Nat),
      attempt st ⟨doc, ancestors, block, false, now⟩ = .drop)
    ∧ ∀ (cfg : Config) (block : DNode) (ancestors : List DNode) (force : Bool),
      renderContentNode cfg false block ancestors force = noEffects := by
  exact ⟨fun st doc block anc now => rfl, fun cfg block anc force => rfl⟩

/-- Claim C9 counterexample: with pending roots `[1, 2]` both connected and
`scan` throwing on root 1, the flush loop stops after root 1 — the remaining
pending root 2 of that flush is NOT scanned, contradicting "all remaining
pending roots of that flush are still scanned". -/
theorem C9_flush_halt_counterexample :
    (flushScanT ⟨[1, 2], true⟩ (fun _ => true) (fun i => i == 1)).2 = ([1], true)
    ∧ (2 : Nat) ∈ ([1, 2] : List Nat)
    ∧ (2 : Nat) ∉ ([1] : List Nat) := by
  exact ⟨by decide, by decide, by decide⟩

/-- Claim C9 amended: the post-flush coordinator state is empty and idle
whether or not `scan` throws (the `scheduled` flag is cleared and the pending
set drained before the loop), so future flushes are unaffected; a throw-free
flush scans exactly the connected pending roots; a synchronous throw at root
`r` halts that flush after scanning the connected roots before `r` and `r`
itself, skipping the rest of that flush only. -/
theorem C9_flush_resilience_amended :
    ∀ (st : CoordState) (conn throwsOn : Nat → Bool) (p1 p2 : List Nat) (r : Nat),
      (flushScanT st conn throwsOn).1 = ⟨[], false⟩
      ∧ (flushScanT st conn throwsOn).1 = (flushScan st conn).1
      ∧ ((∀ i ∈ st.pending, throwsOn i = false) →
          (flushScanT st conn throwsOn).2 = (st.pending.filter conn, false))
      ∧ (st.pending = p1 ++ r :: p2 → (∀ i ∈ p1, throwsOn i = false) →
          conn r = true → throwsOn r = true →
          (flushScanT st conn throwsOn).2 = (p1.filter conn ++ [r], true)) := by
  intro st conn throwsOn p1 p2 r
  refine ⟨rfl, rfl, ?_, ?_⟩
  · intro h
    exact flushLoop_no_throw conn throwsOn st.pending h
  · intro hp h1 hcr htr
    show flushLoop conn throwsOn st.pending = _
    rw [hp]
    exact flushLoop_throw conn throwsOn r hcr htr p1 p2 h1

/-- Claim C9 witness: the amended statement applied to pending roots
`[0, 1, 2]` with a throw at root 1. -/
theorem C9_flush_resilience_witness :
    (flushScanT ⟨[0, 1, 2], true⟩ (fun _ => true) (fun i => i == 1)).2
      = ([0].filter (fun _ => true) ++ [1], true) :=
  (C9_flush_resilience_amended ⟨[0, 1, 2], true⟩ (fun _ => true) (fun i => i == 1)
    [0] [2] 1).2.2.2 rfl (by decide) rfl rfl

/-- Claim C10: `scheduleDeferredRender` on an already-Armed block whose
sampled text equals the stored `lastText` is a complete no-op: the entry
(including `lastChange` and the timer handle) is returned unchanged and no
timer is created — so repeated scheduling with unchanged text is idempotent
and never postpones the idle deadline. -/
theorem C10_noop_reschedule :
    ∀ (connected : Bool) (now : Nat) (st : DeferredState) (tid freshTimer : Nat),
      scheduleDeferredRender connected st.lastText now (some (st, tid)) freshTimer
        = (some (st, tid), false) := by
  intro c now st tid fresh
  by_cases hc : c = false
  · simp [scheduleDeferredRender, hc]
  · simp [scheduleDeferredRender, hc]

end CascadePanel
